import Mathlib

/-!
Shallow embedding of the multi-source consensus and anomaly-detection engine of
the FinBot repository, translated from
`src/validators/multi_source_validator.py` and `src/adapters/base_adapter.py`.

Modelling conventions:
- pandas DataFrames of OHLCV bars become `DF`: an ordered list of
  (timestamp, row) pairs; a row has one `Option Rat` per column, `none`
  standing for a missing value (NaN).  Timestamps are `Nat`.
- Python floats are modelled as `Rat`; places where IEEE non-finite values
  (inf and NaN produced by division by zero) change control flow are made
  explicit in the definitions, with a comment at each spot.
- Python dicts (insertion ordered, assignment to an existing key keeps its
  position and replaces the value) become association lists built with
  `dictInsert`.
- Raised exceptions become `Except String`, carrying the message text.
-/

namespace FinBot

/-- OHLCV column labels of the DataFrames handled by the validator. -/
inductive Col
  | Open | High | Low | Close | Volume
deriving DecidableEq, Fintype

/-- One DataFrame row: an optional rational per OHLCV column; `none` is NaN. -/
structure Row where
  vals : Col → Option ℚ

instance : DecidableEq Row := fun a b =>
  decidable_of_iff (a.vals = b.vals) (by cases a; cases b; simp)

/-- Row whose every entry is missing, as produced by reindexing at an absent
timestamp. -/
def noneRow : Row := ⟨fun _ => none⟩

/-- Row builder from a per-column function. -/
def Row.ofFun (g : Col → Option ℚ) : Row := ⟨g⟩

/-- DataFrame: index entries (timestamps) with their rows, in order. -/
structure DF where
  rows : List (ℕ × Row)
deriving DecidableEq

/-- Index of a DataFrame, in order. -/
def DF.index (df : DF) : List ℕ := df.rows.map Prod.fst

/-- First row stored at a timestamp, if any. -/
def DF.lookupT (df : DF) (t : ℕ) : Option Row :=
  (df.rows.find? (fun p => p.1 = t)).map Prod.snd

/-- The empty DataFrame. -/
def emptyDF : DF := ⟨[]⟩

/-- Value of one column of a DataFrame at a timestamp; `none` when the
timestamp is absent or the stored value is NaN. -/
def DF.colAt (df : DF) (c : Col) (t : ℕ) : Option ℚ :=
  (df.lookupT t).bind (fun r => r.vals c)

/-- Close column at a timestamp. -/
def DF.closeAt (df : DF) (t : ℕ) : Option ℚ := df.colAt Col.Close t

/-- Embeds `DataFrame.reindex(dates)`: one row per requested timestamp, an
all-NaN row where the original frame has no entry. -/
def DF.reindex (df : DF) (dates : List ℕ) : DF :=
  ⟨dates.map (fun t => (t, (df.lookupT t).getD noneRow))⟩

/-- Embeds `DataFrame.dropna()`: keeps the rows in which every column is
present (the consensus frames this is applied to carry all five columns). -/
def DF.dropna (df : DF) : DF :=
  ⟨df.rows.filter (fun p => ∀ c, (p.2.vals c).isSome)⟩

/-! ### Python dict as an ordered association list -/

/-- Assignment `d[k] = v` on an insertion-ordered dict: replaces the value in
place when the key exists, else appends. -/
def dictInsert (k : String) (v : α) : List (String × α) → List (String × α)
  | [] => [(k, v)]
  | (k₁, v₁) :: rest =>
      if k₁ = k then (k₁, v) :: rest else (k₁, v₁) :: dictInsert k v rest

/-- Dict built by assigning the pairs of a list left to right into an
initially empty dict (the shape of every dict construction in the source). -/
def buildDict (l : List (String × α)) : List (String × α) :=
  l.foldl (fun d p => dictInsert p.1 p.2 d) []

/-- Lookup in an association list (first matching key). -/
def alookup (k : String) : List (String × α) → Option α
  | [] => none
  | (k₁, v) :: rest => if k₁ = k then some v else alookup k rest

/-- Value of the rightmost pair of a list carrying a given key, if any; this is
what dict construction keeps for a repeated key. -/
def lastVal (k : String) : List (String × α) → Option α
  | [] => none
  | (k₁, v) :: rest => if k₁ = k then (lastVal k rest).or (some v) else lastVal k rest

/-- Keys of a list with later duplicates removed: the key order of a dict
built by left-to-right assignment. -/
def firstDedup : List String → List String
  | [] => []
  | k :: rest => k :: (firstDedup rest).filter (fun k₁ => k₁ ≠ k)

/-! ### Sorted union of timestamps -/

/-- Insertion into a sorted list. -/
def insertSorted (x : ℕ) : List ℕ → List ℕ
  | [] => [x]
  | y :: ys => if x ≤ y then x :: y :: ys else y :: insertSorted x ys

/-- Insertion sort, used to embed `sorted(all_dates)`. -/
def sortDates (l : List ℕ) : List ℕ := l.foldr insertSorted []

/-! ### Data model (`base_adapter.py`, `multi_source_validator.py`) -/

/-- Embeds `DataQuality` of `base_adapter.py`. -/
inductive DataQuality
  | excellent | good | fair | poor | unknown
deriving DecidableEq

/-- Embeds `ValidationResult` of `base_adapter.py` (the informational
`metadata` dict of the source, which no claim touches, is omitted). -/
structure ValidationResult where
  is_valid : Bool
  quality_score : ℚ
  quality_level : DataQuality
  errors : List String
  warnings : List String
deriving DecidableEq

/-- Embeds `ConsensusMethod` of `multi_source_validator.py`. -/
inductive ConsensusMethod
  | majority | weighted_average | highest_quality | median
deriving DecidableEq

/-- String value of a consensus method (the `.value` of the Python enum). -/
def ConsensusMethod.value : ConsensusMethod → String
  | .majority => "majority"
  | .weighted_average => "weighted_average"
  | .highest_quality => "highest_quality"
  | .median => "median"

/-- Embeds `DataSourceResult`: the adapter object is represented by the two
facts the validator reads off it, its class name (`__class__.__name__`, the
source identifier used throughout) and its reliability score (the `weight`). -/
structure SourceResult where
  name : String
  data : DF
  validation : ValidationResult
  weight : ℚ
deriving DecidableEq

/-- Embeds one anomaly dict of `_detect_anomalies` (the dict key `type` of
the source is the field `kind` here).  `deviation_pct` is `none` when the
Python value is non-finite (the consensus close is 0, so the float deviation
is inf or NaN, which `Rat` cannot carry). -/
structure AnomalyRecord where
  source : String
  date : ℕ
  consensus_price : ℚ
  source_price : ℚ
  deviation_pct : Option ℚ
  kind : String
deriving DecidableEq

/-- Values stored in the metadata dicts of a `ConsensusResult`. -/
inductive MetaVal
  | b (x : Bool)
  | s (x : String)
  | n (x : ℕ)
deriving DecidableEq

/-- Embeds `ConsensusResult`.  Agreement and confidence are real-valued
because they come from a Pearson correlation (a square root). -/
structure ConsensusResult where
  consensus_data : DF
  confidence_score : ℝ
  source_agreement : List (String × ℝ)
  anomalies : List AnomalyRecord
  metadata : List (String × MetaVal)

/-! ### Quality validator (`BaseDataAdapter.validate_data`) -/

/-- Total count of missing (NaN) cells, `data.isnull().sum().sum()`; every
frame carries the five OHLCV columns in this model. -/
def countMissing (df : DF) : ℕ :=
  (df.rows.map (fun p => ((Finset.univ : Finset Col).filter
    (fun c => (p.2.vals c).isNone)).card)).sum

/-- Count of rows whose close is nonpositive, `(data[Close] <= 0).sum()`;
a NaN close compares false in pandas, hence contributes nothing. -/
def countInvalidPrices (df : DF) : ℕ :=
  (df.rows.filter (fun p => match p.2.vals Col.Close with
    | some c => c ≤ 0
    | none => false)).length

/-- Count of rows with high strictly below low, `(data[High] < data[Low]).sum()`;
rows where either side is NaN compare false. -/
def countInconsistent (df : DF) : ℕ :=
  (df.rows.filter (fun p => match p.2.vals Col.High, p.2.vals Col.Low with
    | some h, some l => h < l
    | _, _ => false)).length

/-- Forward fill of an optional-value column, the `fill_method` padding that
`Series.pct_change()` applies before differencing. -/
def ffillGo (last : Option ℚ) : List (Option ℚ) → List (Option ℚ)
  | [] => []
  | x :: xs => match x with
    | some v => some v :: ffillGo (some v) xs
    | none => last :: ffillGo last xs

/-- Embeds `data[Close].pct_change().dropna()`: single-bar returns between
consecutive padded closes, leading undefined entries dropped.  The Rat
quotient sends a zero previous close to a return of -1 where pandas produces
a non-finite value; both sides count as an extreme return downstream. -/
def pctChangeDropna (closes : List (Option ℚ)) : List ℚ :=
  let f := ffillGo none closes
  (f.zip (f.drop 1)).filterMap (fun p => match p.1, p.2 with
    | some a, some b => some (b / a - 1)
    | _, _ => none)

/-- Close column of a frame in row order. -/
def DF.closes (df : DF) : List (Option ℚ) := df.rows.map (fun p => p.2.vals Col.Close)

/-- Quality level from the accumulated score, the if-chain closing
`validate_data`. -/
def levelFromScore (s : ℚ) : DataQuality :=
  if s ≥ 9/10 then .excellent
  else if s ≥ 7/10 then .good
  else if s ≥ 1/2 then .fair
  else if s ≥ 3/10 then .poor
  else .unknown

/-- Accumulated (errors, warnings, quality score) of `validate_data` before
the final clamp; mirrors the sequential mutation of the source (the formatted
counts inside the Python message strings are not reproduced). -/
def qualityChecks (data : DF) : List String × List String × ℚ :=
  if data.rows.isEmpty then (["No data returned"], [], 0)
  else
    let missingPct : ℚ := (countMissing data : ℚ) / ((data.rows.length : ℚ) * 5)
    let e₁ : List String := if missingPct > 1/10 then ["High missing data percentage"] else []
    let w₁ : List String := if missingPct > 1/10 then []
      else if missingPct > 1/20 then ["Some missing data"] else []
    let s₁ : ℚ := if missingPct > 1/10 then 1 - 3/10
      else if missingPct > 1/20 then 1 - 1/10 else 1
    let e₂ : List String := if countInvalidPrices data > 0 then ["Invalid prices found"] else []
    let s₂ : ℚ := if countInvalidPrices data > 0 then s₁ - 4/10 else s₁
    let e₃ : List String := if countInconsistent data > 0 then ["Inconsistent high/low prices"] else []
    let s₃ : ℚ := if countInconsistent data > 0 then s₂ - 1/2 else s₂
    let rets := pctChangeDropna data.closes
    let extreme := (rets.filter (fun r => |r| > 1/5)).length
    let w₂ : List String := if (extreme : ℚ) > (rets.length : ℚ) * (1/20)
      then ["Many extreme returns"] else []
    let s₄ : ℚ := if (extreme : ℚ) > (rets.length : ℚ) * (1/20) then s₃ - 1/10 else s₃
    (e₁ ++ e₂ ++ e₃, w₁ ++ w₂, s₄)

/-- Embeds `BaseDataAdapter.validate_data`: the quality level is derived from
the raw accumulated score, the reported score is floored at 0, and validity
means no error was recorded. -/
def validate_data (data : DF) : ValidationResult :=
  let c := qualityChecks data
  { is_valid := c.1.isEmpty
    quality_score := max 0 c.2.2
    quality_level := levelFromScore c.2.2
    errors := c.1
    warnings := c.2.1 }

/-! ### Time aligner (`_align_data_sources`) -/

/-- Sorted union of every timestamp seen in any source, `sorted(all_dates)`
(set semantics: duplicates removed before sorting). -/
def unionDates (rs : List SourceResult) : List ℕ :=
  sortDates ((rs.flatMap (fun r => r.data.index)).dedup)

/-- Embeds `_align_data_sources`: empty dict when no timestamp exists at all,
else a dict from class name to the source frame reindexed onto the union (a
repeated class name keeps only the last assignment). -/
def alignDataSources (rs : List SourceResult) : List (String × DF) :=
  let allDates := unionDates rs
  if allDates.isEmpty then []
  else buildDict (rs.map (fun r => (r.name, r.data.reindex allDates)))

/-! ### Consensus engine -/

/-- NaN-propagating product with a weight, `df[column] * weight`. -/
def optMul (w : ℚ) : Option ℚ → Option ℚ
  | some v => some (w * v)
  | none => none

/-- NaN-propagating sum of two entries. -/
def optAdd : Option ℚ → Option ℚ → Option ℚ
  | some a, some b => some (a + b)
  | _, _ => none

/-- Pointwise `sum(weighted_values)`: the Python builtin starts from the
scalar 0 and adds the series; any NaN operand poisons the position. -/
def sumOpt (l : List (Option ℚ)) : Option ℚ := l.foldl optAdd (some 0)

/-- Weights dict of `_weighted_average_consensus`,
`{name: result.weight for result in source_results}`. -/
def weightsDict (rs : List SourceResult) : List (String × ℚ) :=
  buildDict (rs.map (fun r => (r.name, r.weight)))

/-- One consensus row before `dropna`: for each column, the weighted values of
every aligned source summed with NaN propagation. -/
def consensusRowAt (normalized : List (String × ℚ)) (aligned : List (String × DF))
    (t : ℕ) : Row :=
  Row.ofFun (fun c => sumOpt (aligned.map (fun p =>
    optMul ((alookup p.1 normalized).getD 0) (((p.2.lookupT t).getD noneRow).vals c))))

/-- Embeds `_weighted_average_consensus`.  When every weight is 0 the
normalisation `v / total_weight` raises ZeroDivisionError in the source; the
consensus frame is indexed by the first aligned frame and `dropna` removes
every timestamp at which any source has any missing column.  The per-column
`if column in ... columns` and `if weighted_values` guards of the source are
always satisfied in this model, where every frame carries all five OHLCV
columns. -/
def weightedAverageConsensus (aligned : List (String × DF)) (rs : List SourceResult) :
    Except String DF :=
  if aligned.isEmpty then .ok emptyDF
  else
    let weights := weightsDict rs
    let total : ℚ := (weights.map Prod.snd).sum
    if total = 0 then .error "float division by zero"
    else
      let normalized : List (String × ℚ) := weights.map (fun p => (p.1, p.2 / total))
      let idx : List ℕ := ((aligned.headD ("", emptyDF)).2).index
      DF.dropna ⟨idx.map (fun t => (t, consensusRowAt normalized aligned t))⟩ |> .ok

/-- Median of a list of rationals in the pandas sense: mean of the two middle
order statistics for an even count. -/
def pandasMedian (l : List ℚ) : Option ℚ :=
  let s := l.mergeSort (fun a b => a ≤ b)
  let n := s.length
  if n = 0 then none
  else if n % 2 = 1 then s.get? (n / 2)
  else match s.get? (n / 2 - 1), s.get? (n / 2) with
    | some a, some b => some ((a + b) / 2)
    | _, _ => none

/-- Embeds `_majority_consensus`: per timestamp and column, the row-wise
median over the sources holding a value there (`DataFrame.median` skips NaN),
then `dropna`. -/
def majorityConsensus (aligned : List (String × DF)) : DF :=
  if aligned.isEmpty then emptyDF
  else
    let idx : List ℕ := ((aligned.headD ("", emptyDF)).2).index
    DF.dropna ⟨idx.map (fun t => (t, Row.ofFun (fun c =>
      pandasMedian (aligned.filterMap (fun p =>
        ((p.2.lookupT t).getD noneRow).vals c)))))⟩

/-- Python `max(iterable, key=f)`: keeps the current maximum unless a later
element is strictly greater, so the first maximal element wins. -/
def pyMaxBy (f : SourceResult → ℚ) : List SourceResult → Option SourceResult
  | [] => none
  | x :: xs => some (xs.foldl (fun best y => if f best < f y then y else best) x)

/-- Embeds `_highest_quality_consensus`: adopt wholesale the frame of the
first source attaining the maximal quality score (the aligned dict argument
of the source method is never read). -/
def highestQualityConsensus (rs : List SourceResult) : DF :=
  match pyMaxBy (fun r => r.validation.quality_score) rs with
  | none => emptyDF
  | some best => best.data

/-- Embeds `_create_consensus`.  With two or more sources the source method
evaluates `aligned_data.empty` on the dict returned by
`_align_data_sources`; a Python dict has no attribute `empty`, so this line
raises AttributeError before any consensus method is dispatched, and the
per-method branches below it are unreachable there. -/
def createConsensus (method : ConsensusMethod) (rs : List SourceResult) :
    Except String DF :=
  match rs with
  | [] => .ok emptyDF
  | [r] => .ok r.data
  | _ => .error "AttributeError: dict object has no attribute empty"

/-! ### Pearson correlation, confidence and agreement -/

/-- Timestamps shared by the consensus frame and a source frame,
`consensus_data.index.intersection(result.data.index)`. -/
def commonDates (cdf sdf : DF) : List ℕ :=
  cdf.index.filter (fun t => t ∈ sdf.index)

/-- Close pairs (consensus, source) over the shared timestamps at which both
closes are present; `Series.corr` discards pairs with a NaN side. -/
def closePairs (cdf sdf : DF) : List (ℚ × ℚ) :=
  (commonDates cdf sdf).filterMap (fun t =>
    match cdf.closeAt t, sdf.closeAt t with
    | some c, some s => some (c, s)
    | _, _ => none)

/-- Absolute Pearson correlation of a list of pairs, `abs(x.corr(y))`:
`none` models the NaN that pandas returns with fewer than two usable pairs or
a constant side (zero variance). -/
noncomputable def absCorr (ps : List (ℚ × ℚ)) : Option ℝ :=
  if ps.length < 2 then none
  else
    let n : ℚ := ps.length
    let mx : ℚ := (ps.map Prod.fst).sum / n
    let my : ℚ := (ps.map Prod.snd).sum / n
    let vx : ℚ := (ps.map (fun p => (p.1 - mx) ^ 2)).sum
    let vy : ℚ := (ps.map (fun p => (p.2 - my) ^ 2)).sum
    let cov : ℚ := (ps.map (fun p => (p.1 - mx) * (p.2 - my))).sum
    if vx = 0 ∨ vy = 0 then none
    else some (|(cov : ℝ)| / Real.sqrt ((vx : ℝ) * (vy : ℝ)))

/-- Embeds `_calculate_confidence`.  Note for the record: the source divides
the raw source count by 5 without capping the quotient at 1, and a source
whose correlation is undefined is left out of the agreement mean rather than
contributing 0 to it. -/
noncomputable def calcConfidence (rs : List SourceResult) (cdf : DF) : ℝ :=
  if rs.isEmpty ∨ cdf.rows.isEmpty then 0
  else
    let numSources : ℚ := rs.length
    let avgQuality : ℚ := (rs.map (fun r => r.validation.quality_score)).sum / (rs.length : ℚ)
    let agreementScores : List ℝ := rs.filterMap (fun r =>
      if r.data.rows.isEmpty then none
      else if 1 < (commonDates cdf r.data).length then absCorr (closePairs cdf r.data)
      else none)
    let avgAgreement : ℝ :=
      if agreementScores.isEmpty then 0
      else agreementScores.sum / (agreementScores.length : ℝ)
    let confidence : ℝ :=
      ((numSources : ℝ) / 5) * (3/10) + (avgQuality : ℝ) * (4/10) + avgAgreement * (3/10)
    min 1 (max 0 confidence)

/-- Agreement of one source with the consensus, the dict value computed by
one pass of the loop of `_calculate_source_agreement` (0 for an empty frame,
at most one shared timestamp, or a NaN correlation). -/
noncomputable def agreementValue (cdf : DF) (r : SourceResult) : ℝ :=
  if r.data.rows.isEmpty then 0
  else if 1 < (commonDates cdf r.data).length then (absCorr (closePairs cdf r.data)).getD 0
  else 0

/-- Embeds `_calculate_source_agreement`: a dict from class name to agreement,
assigned source by source (a repeated class name keeps the last value). -/
noncomputable def calcSourceAgreement (rs : List SourceResult) (cdf : DF) :
    List (String × ℝ) :=
  buildDict (rs.map (fun r => (r.name, agreementValue cdf r)))

/-! ### Anomaly detector (`_detect_anomalies`) -/

/-- Deviation comparison `abs((source - consensus) / consensus) > threshold`
under IEEE semantics: with a zero consensus close the quotient is non-finite,
inf (flagged, for any finite threshold) when the source close differs from 0
and NaN (not flagged) when it is 0 too. -/
def deviationExceeds (thr s c : ℚ) : Prop :=
  if c = 0 then s ≠ 0 else |(s - c) / c| > thr

instance (thr s c : ℚ) : Decidable (deviationExceeds thr s c) := by
  unfold deviationExceeds; infer_instance

/-- Percentage deviation stored in an anomaly record; `none` models the
non-finite float obtained when the consensus close is 0. -/
def deviationPct (s c : ℚ) : Option ℚ :=
  if c = 0 then none else some (|(s - c) / c| * 100)

/-- Records contributed by one source, the body of the loop of
`_detect_anomalies`: one record per shared timestamp at which both closes are
present and the deviation comparison holds. -/
def anomaliesFor (thr : ℚ) (cdf : DF) (r : SourceResult) : List AnomalyRecord :=
  if r.data.rows.isEmpty then []
  else (commonDates cdf r.data).filterMap (fun t =>
    match cdf.closeAt t, r.data.closeAt t with
    | some c, some s =>
        if deviationExceeds thr s c then
          some ⟨r.name, t, c, s, deviationPct s c, "price_deviation"⟩
        else none
    | _, _ => none)

/-- Embeds `_detect_anomalies`.  The `len(common_dates) > 0` and
`high_deviation.any()` guards of the source only skip work and do not change
the emitted records. -/
def detectAnomalies (thr : ℚ) (rs : List SourceResult) (cdf : DF) :
    List AnomalyRecord :=
  rs.flatMap (anomaliesFor thr cdf)

/-! ### Orchestrator (`get_consensus_data` after the fetch loop) -/

/-- Anomaly threshold fixed in `__init__`. -/
def anomalyThreshold : ℚ := 1/10

/-- Minimum number of sources fixed in `__init__`. -/
def minSources : ℕ := 2

/-- Embeds `_create_fallback_result`: with at least one source, adopt the
frame of the best-quality source with halved confidence; with none, an empty
result whose metadata records only the fallback and its reason. -/
noncomputable def createFallbackResult (rs : List SourceResult) : ConsensusResult :=
  match pyMaxBy (fun r => r.validation.quality_score) rs with
  | some best =>
      { consensus_data := best.data
        confidence_score := (best.validation.quality_score : ℝ) * (1/2)
        source_agreement := [(best.name, 1)]
        anomalies := []
        metadata := [("fallback", .b true), ("reason", .s "insufficient_sources")] }
  | none =>
      { consensus_data := emptyDF
        confidence_score := 0
        source_agreement := []
        anomalies := []
        metadata := [("fallback", .b true), ("reason", .s "no_sources")] }

/-- Embeds `_create_error_result`. -/
def createErrorResult (msg : String) : ConsensusResult :=
  { consensus_data := emptyDF
    confidence_score := 0
    source_agreement := []
    anomalies := []
    metadata := [("error", .b true), ("message", .s msg)] }

/-- Embeds `get_consensus_data` from the point where the per-adapter fetch
loop has produced its list of `DataSourceResult`s (the fetch itself is I/O
and out of scope; skipped, failing and empty-frame adapters simply do not
appear in `rs`).  The enclosing `try` turns any exception raised by the
consensus construction into `_create_error_result`. -/
noncomputable def get_consensus_data (symbol dateRange interval : String)
    (method : ConsensusMethod) (rs : List SourceResult) : ConsensusResult :=
  if rs.length < minSources then createFallbackResult rs
  else
    match createConsensus method rs with
    | .error e => createErrorResult e
    | .ok cdf =>
        { consensus_data := cdf
          confidence_score := calcConfidence rs cdf
          source_agreement := calcSourceAgreement rs cdf
          anomalies := detectAnomalies anomalyThreshold rs cdf
          metadata := [("sources_used", .n rs.length),
                       ("consensus_method", .s method.value),
                       ("symbol", .s symbol),
                       ("date_range", .s dateRange),
                       ("interval", .s interval)] }

instance {ε α : Type} [DecidableEq ε] [DecidableEq α] : DecidableEq (Except ε α) :=
  fun a b =>
    match a, b with
    | .ok x, .ok y => decidable_of_iff (x = y) (by simp)
    | .error x, .error y => decidable_of_iff (x = y) (by simp)
    | .ok _, .error _ => isFalse (by simp)
    | .error _, .ok _ => isFalse (by simp)

/-! ### Spec-side definitions

These definitions follow the words of the specification claims, not the
source; each claim theorem compares the source embedding against them. -/

/-- Spec-side (claims C1 and C3): the weighted-average consensus value the
spec describes at one timestamp — present exactly when at least one source
holds a full observation there, equal to the mean of the contributing
observations weighted by the weights re-normalised over the contributing
subset. -/
def specConsensusAt (rs : List SourceResult) (t : ℕ) : Option Row :=
  let contributing := rs.filter (fun r => ∀ c, ((r.data.lookupT t).bind (fun w => w.vals c)).isSome)
  if contributing.isEmpty then none
  else
    let w : ℚ := (contributing.map (fun r => r.weight)).sum
    some (Row.ofFun (fun c => some
      ((contributing.map (fun r =>
        r.weight * (((r.data.lookupT t).bind (fun x => x.vals c)).getD 0))).sum / w)))

/-- Spec-side (claim C1, amended): what the source actually produces at one
timestamp — a value only where every source holds a full observation, with the
weights normalised over all sources. -/
def codeConsensusAt (rs : List SourceResult) (t : ℕ) : Option Row :=
  if t ∈ unionDates rs ∧ ∀ r ∈ rs, ∀ c, ((r.data.lookupT t).bind (fun w => w.vals c)).isSome
  then some (Row.ofFun (fun c => some
    ((rs.map (fun r =>
      r.weight * (((r.data.lookupT t).bind (fun x => x.vals c)).getD 0))).sum
      / (rs.map (fun r => r.weight)).sum)))
  else none

/-- Mean of a list of rationals, 0 for the empty list. -/
def qMean (l : List ℚ) : ℚ := if l.isEmpty then 0 else l.sum / (l.length : ℚ)

/-- Spec-side (claim C5): the confidence formula stated by the claim, with
the source-count term capped at 1 and the agreements averaged over all
sources. -/
def claimConfidence (numSources : ℕ) (qualities agreements : List ℚ) : ℚ :=
  min 1 (max 0 ((3/10) * min 1 ((numSources : ℚ) / 5)
    + (4/10) * qMean qualities + (3/10) * qMean agreements))

/-- Agreement entries of the source formula that enter the confidence mean:
the defined absolute correlations, one per source whose frame is non-empty,
shares more than one timestamp with the consensus, and has a non-NaN
correlation with it. -/
noncomputable def definedAgreements (rs : List SourceResult) (cdf : DF) : List ℝ :=
  rs.filterMap (fun r =>
    if r.data.rows.isEmpty then none
    else if 1 < (commonDates cdf r.data).length then absCorr (closePairs cdf r.data)
    else none)

/-- Mean of a list of reals, 0 for the empty list. -/
noncomputable def rMean (l : List ℝ) : ℝ := if l.isEmpty then 0 else l.sum / (l.length : ℝ)

/-! ### Concrete instances used by counterexamples and witnesses -/

/-- Row holding the same value in all five columns. -/
def fullRowOf (x : ℚ) : Row := ⟨fun _ => some x⟩

/-- A clean validation result (quality 1). -/
def vr1 : ValidationResult := ⟨true, 1, .excellent, [], []⟩

/-- A validation result of quality 0. -/
def vr0 : ValidationResult := ⟨true, 0, .unknown, [], []⟩

/-- Source A: bars at timestamps 0 and 1, weight 1. -/
def srcA : SourceResult := ⟨"A", ⟨[(0, fullRowOf 2), (1, fullRowOf 2)]⟩, vr1, 1⟩

/-- Source B: a bar at timestamp 0 only, weight 3. -/
def srcB : SourceResult := ⟨"B", ⟨[(0, fullRowOf 4)]⟩, vr1, 3⟩

/-- Two-source pool in which B is missing at timestamp 1. -/
def poolAB : List SourceResult := [srcA, srcB]

/-- Consensus frame whose close at timestamp 0 is 0. -/
def cdfZeroClose : DF := ⟨[(0, fullRowOf 0)]⟩

/-- Two sources of weight 0 each, for the zero-total-weight scenario. -/
def poolZeroW : List SourceResult :=
  [⟨"A", ⟨[(0, fullRowOf 1)]⟩, vr1, 0⟩, ⟨"B", ⟨[(0, fullRowOf 2)]⟩, vr1, 0⟩]

/-- Source of quality 0 tracking the consensus exactly at timestamps 0 and 1. -/
def srcTrack (nm : String) : SourceResult :=
  ⟨nm, ⟨[(0, fullRowOf 1), (1, fullRowOf 2)]⟩, vr0, 1⟩

/-- Source of quality 0 sharing a single timestamp with the consensus. -/
def srcOneDate : SourceResult := ⟨"S6", ⟨[(0, fullRowOf 1)]⟩, vr0, 1⟩

/-- Six-source pool for the confidence counterexample: five sources agreeing
perfectly with the consensus plus one with a single shared timestamp. -/
def poolC5 : List SourceResult :=
  [srcTrack "S1", srcTrack "S2", srcTrack "S3", srcTrack "S4", srcTrack "S5", srcOneDate]

/-- Consensus frame for the confidence counterexample. -/
def cdfC5 : DF := ⟨[(0, fullRowOf 1), (1, fullRowOf 2)]⟩

/-- Two sources of equal quality score and different weights and frames, for
the highest-quality tie-break. -/
def poolTie : List SourceResult :=
  [⟨"A", ⟨[(0, fullRowOf 1)]⟩, vr1, 1/10⟩, ⟨"B", ⟨[(0, fullRowOf 2)]⟩, vr1, 9/10⟩]

/-- A single source used by witnesses about the degraded paths. -/
def srcSolo : SourceResult := ⟨"Solo", ⟨[(0, fullRowOf 5)]⟩, ⟨true, 4/5, .good, [], []⟩, 7/10⟩

/-! ### Lemmas about dict operations -/

theorem alookup_dictInsert {α : Type} (k k₂ : String) (v : α) (d : List (String × α)) :
    alookup k₂ (dictInsert k v d) = if k₂ = k then some v else alookup k₂ d := by
  induction d with
  | nil =>
      by_cases h : k₂ = k
      · subst h; simp [dictInsert, alookup]
      · simp [dictInsert, alookup, h, Ne.symm h]
  | cons p rest ih =>
      obtain ⟨k₁, v₁⟩ := p
      by_cases h₁ : k₁ = k
      · subst h₁
        by_cases h₂ : k₂ = k₁
        · subst h₂; simp [dictInsert, alookup]
        · simp [dictInsert, alookup, h₂, Ne.symm h₂]
      · by_cases h₂ : k₁ = k₂
        · subst h₂
          simp [dictInsert, alookup, h₁, Ne.symm h₁]
        · simp [dictInsert, alookup, h₁, h₂, ih]

theorem dictInsert_of_not_mem {α : Type} {k : String} {d : List (String × α)}
    (v : α) (h : k ∉ d.map Prod.fst) : dictInsert k v d = d ++ [(k, v)] := by
  induction d with
  | nil => simp [dictInsert]
  | cons p rest ih =>
      obtain ⟨k₁, v₁⟩ := p
      simp only [List.map_cons, List.mem_cons] at h
      push_neg at h
      simp [dictInsert, Ne.symm h.1, ih h.2]

theorem keys_dictInsert {α : Type} (k : String) (v : α) (d : List (String × α)) :
    (dictInsert k v d).map Prod.fst =
      if k ∈ d.map Prod.fst then d.map Prod.fst else d.map Prod.fst ++ [k] := by
  induction d with
  | nil => simp [dictInsert]
  | cons p rest ih =>
      obtain ⟨k₁, v₁⟩ := p
      by_cases h₁ : k₁ = k
      · subst h₁; simp [dictInsert]
      · by_cases h₂ : k ∈ rest.map Prod.fst <;>
          simp [dictInsert, h₁, h₂, ih, Ne.symm h₁]

theorem foldl_dictInsert_alookup {α : Type} (l : List (String × α)) (d : List (String × α))
    (k : String) :
    alookup k (l.foldl (fun d p => dictInsert p.1 p.2 d) d) =
      (lastVal k l).or (alookup k d) := by
  induction l generalizing d with
  | nil => simp [lastVal]
  | cons p rest ih =>
      obtain ⟨k₁, v₁⟩ := p
      simp only [List.foldl_cons, lastVal, ih, alookup_dictInsert]
      by_cases h : k₁ = k
      · subst h
        simp only [if_pos rfl]
        cases lastVal k₁ rest <;> simp [Option.or]
      · simp [h, Ne.symm h]

theorem buildDict_alookup {α : Type} (l : List (String × α)) (k : String) :
    alookup k (buildDict l) = lastVal k l := by
  simpa [buildDict, alookup] using foldl_dictInsert_alookup l [] k

theorem filter_anti_of_mem {k₁ : String} {keys : List String} (h : k₁ ∈ keys)
    (l : List String) :
    (l.filter (fun a => a ≠ k₁)).filter (fun a => a ∉ keys) =
      l.filter (fun a => a ∉ keys) := by
  rw [List.filter_filter]
  apply List.filter_congr
  intro a _
  by_cases h₂ : a ∈ keys
  · simp [h₂]
  · have h₃ : a ≠ k₁ := fun hh => h₂ (hh ▸ h)
    simp [h₂, h₃]

theorem filter_append_singleton {k₁ : String} {keys : List String} (l : List String) :
    l.filter (fun a => a ∉ keys ++ [k₁]) =
      (l.filter (fun a => a ≠ k₁)).filter (fun a => a ∉ keys) := by
  rw [List.filter_filter]
  apply List.filter_congr
  intro a _
  by_cases h₁ : a = k₁ <;> by_cases h₂ : a ∈ keys <;> simp [h₁, h₂]

theorem foldl_dictInsert_keys {α : Type} (l : List (String × α)) (d : List (String × α)) :
    (l.foldl (fun d p => dictInsert p.1 p.2 d) d).map Prod.fst =
      d.map Prod.fst ++
        (firstDedup (l.map Prod.fst)).filter (fun a => a ∉ d.map Prod.fst) := by
  induction l generalizing d with
  | nil => simp [firstDedup]
  | cons p rest ih =>
      obtain ⟨k₁, v₁⟩ := p
      simp only [List.foldl_cons, ih, keys_dictInsert, List.map_cons, firstDedup]
      by_cases h : k₁ ∈ d.map Prod.fst
      · simp only [if_pos h]
        rw [show ((k₁ :: (firstDedup (rest.map Prod.fst)).filter (fun a => a ≠ k₁)).filter
            (fun a => a ∉ d.map Prod.fst)) =
            ((firstDedup (rest.map Prod.fst)).filter (fun a => a ≠ k₁)).filter
              (fun a => a ∉ d.map Prod.fst) by simp [h]]
        rw [filter_anti_of_mem h]
      · simp only [if_neg h]
        rw [show ((k₁ :: (firstDedup (rest.map Prod.fst)).filter (fun a => a ≠ k₁)).filter
            (fun a => a ∉ d.map Prod.fst)) =
            k₁ :: ((firstDedup (rest.map Prod.fst)).filter (fun a => a ≠ k₁)).filter
              (fun a => a ∉ d.map Prod.fst) by simp [h]]
        rw [← filter_append_singleton]
        simp

theorem buildDict_keys {α : Type} (l : List (String × α)) :
    (buildDict l).map Prod.fst = firstDedup (l.map Prod.fst) := by
  simpa [buildDict] using foldl_dictInsert_keys l []

theorem foldl_dictInsert_disjoint {α : Type} (l : List (String × α)) :
    ∀ d : List (String × α), (l.map Prod.fst).Nodup →
      (∀ k ∈ l.map Prod.fst, k ∉ d.map Prod.fst) →
      l.foldl (fun d p => dictInsert p.1 p.2 d) d = d ++ l := by
  induction l with
  | nil => simp
  | cons p rest ih =>
      intro d hnd hdisj
      obtain ⟨k₁, v₁⟩ := p
      simp only [List.map_cons, List.nodup_cons] at hnd
      have hk₁ : k₁ ∉ d.map Prod.fst := hdisj k₁ (by simp)
      simp only [List.foldl_cons, dictInsert_of_not_mem v₁ hk₁]
      rw [ih (d ++ [(k₁, v₁)]) hnd.2]
      · simp
      · intro k hk
        have hk₀ : k ∉ d.map Prod.fst :=
          hdisj k (by simp only [List.map_cons, List.mem_cons]; exact Or.inr hk)
        simp only [List.map_append, List.mem_append, List.map_cons, List.map_nil,
          List.mem_singleton]
        push_neg
        refine ⟨hk₀, ?_⟩
        intro hkk
        exact hnd.1 (hkk ▸ hk)

theorem buildDict_of_nodup {α : Type} (l : List (String × α))
    (h : (l.map Prod.fst).Nodup) : buildDict l = l := by
  simpa [buildDict] using foldl_dictInsert_disjoint l [] h (by simp)

/-! ### Lemmas about the sorted union and reindexing -/

theorem insertSorted_perm (x : ℕ) (l : List ℕ) : List.Perm (insertSorted x l) (x :: l) := by
  induction l with
  | nil => simp [insertSorted]
  | cons y ys ih =>
      by_cases h : x ≤ y
      · simp [insertSorted, h]
      · simp only [insertSorted, if_neg h]
        exact (ih.cons y).trans (List.Perm.swap x y ys)

theorem sortDates_perm (l : List ℕ) : List.Perm (sortDates l) l := by
  induction l with
  | nil => simp [sortDates]
  | cons a l ih =>
      simpa [sortDates] using (insertSorted_perm a (sortDates l)).trans (ih.cons a)

theorem mem_sortDates {a : ℕ} {l : List ℕ} : a ∈ sortDates l ↔ a ∈ l :=
  (sortDates_perm l).mem_iff

theorem nodup_sortDates {l : List ℕ} (h : l.Nodup) : (sortDates l).Nodup :=
  (sortDates_perm l).nodup_iff.mpr h

theorem unionDates_nodup (rs : List SourceResult) : (unionDates rs).Nodup :=
  nodup_sortDates (List.nodup_dedup _)

theorem mem_unionDates {t : ℕ} {rs : List SourceResult} :
    t ∈ unionDates rs ↔ ∃ r ∈ rs, t ∈ r.data.index := by
  simp [unionDates, mem_sortDates, List.mem_dedup, List.mem_flatMap]

theorem reindex_index (df : DF) (dates : List ℕ) : (df.reindex dates).index = dates := by
  induction dates with
  | nil => rfl
  | cons a rest ih => simpa [DF.reindex, DF.index] using ih

theorem lookupT_cons (a : ℕ) (r : Row) (rest : List (ℕ × Row)) (t : ℕ) :
    DF.lookupT ⟨(a, r) :: rest⟩ t = if a = t then some r else DF.lookupT ⟨rest⟩ t := by
  by_cases h : a = t <;> simp [DF.lookupT, List.find?, h]

theorem reindex_lookupT (df : DF) (dates : List ℕ) (t : ℕ) :
    (df.reindex dates).lookupT t =
      if t ∈ dates then some ((df.lookupT t).getD noneRow) else none := by
  induction dates with
  | nil => simp [DF.reindex, DF.lookupT]
  | cons a rest ih =>
      simp only [DF.reindex, List.map_cons] at *
      rw [lookupT_cons]
      by_cases h : a = t
      · subst h; simp
      · rw [if_neg h, ih]
        by_cases h₂ : t ∈ rest <;> simp [h₂, h, Ne.symm h]

theorem lookupT_map_filter (idx : List ℕ) (h : idx.Nodup) (g : ℕ → Row)
    (pred : Row → Bool) (t : ℕ) :
    DF.lookupT ⟨(idx.map (fun s => (s, g s))).filter (fun p => pred p.2)⟩ t =
      if t ∈ idx ∧ pred (g t) then some (g t) else none := by
  induction idx with
  | nil => simp [DF.lookupT]
  | cons a rest ih =>
      simp only [List.nodup_cons] at h
      simp only [List.map_cons]
      by_cases hp : pred (g a)
      · rw [List.filter_cons_of_pos (by simpa using hp)]
        rw [lookupT_cons]
        by_cases hat : a = t
        · subst hat; simp [hp]
        · rw [if_neg hat, ih h.2]
          by_cases h₂ : t ∈ rest <;> simp [h₂, hat, Ne.symm hat, hp]
      · rw [List.filter_cons_of_neg (by simpa using hp)]
        rw [ih h.2]
        by_cases hat : a = t
        · subst hat
          simp [h.1, hp]
        · by_cases h₂ : t ∈ rest <;> simp [h₂, hat, Ne.symm hat]

/-! ### Lemmas about NaN-propagating sums -/

theorem foldl_optAdd_none (l : List (Option ℚ)) : l.foldl optAdd none = none := by
  induction l with
  | nil => rfl
  | cons x xs ih => cases x <;> simpa [optAdd] using ih

theorem foldl_optAdd_some (l : List (Option ℚ)) :
    ∀ a : ℚ, (∀ x ∈ l, x.isSome) →
      l.foldl optAdd (some a) = some (a + (l.map (fun x => x.getD 0)).sum) := by
  induction l with
  | nil => intro a _; simp
  | cons x xs ih =>
      intro a hall
      obtain ⟨v, rfl⟩ := Option.isSome_iff_exists.mp (hall x (by simp))
      simp only [List.foldl_cons, optAdd]
      rw [ih (a + v) (fun y hy => hall y (by simp [hy]))]
      simp [add_assoc]

theorem sumOpt_some (l : List (Option ℚ)) (h : ∀ x ∈ l, x.isSome) :
    sumOpt l = some ((l.map (fun x => x.getD 0)).sum) := by
  simpa using foldl_optAdd_some l 0 h

theorem foldl_optAdd_mem_none (l : List (Option ℚ)) :
    ∀ a : ℚ, none ∈ l → l.foldl optAdd (some a) = none := by
  induction l with
  | nil => intro a h; cases h
  | cons y ys ih =>
      intro a h
      rcases List.mem_cons.mp h with h₁ | h₂
      · rw [List.foldl_cons, show optAdd (some a) y = none from by rw [← h₁]; rfl]
        exact foldl_optAdd_none ys
      · cases y with
        | none =>
            rw [List.foldl_cons, show optAdd (some a) none = none from rfl]
            exact foldl_optAdd_none ys
        | some v =>
            rw [List.foldl_cons, show optAdd (some a) (some v) = some (a + v) from rfl]
            exact ih (a + v) h₂

theorem sumOpt_none (l : List (Option ℚ)) (h : none ∈ l) : sumOpt l = none :=
  foldl_optAdd_mem_none l 0 h

theorem getD_noneRow_vals (o : Option Row) (c : Col) :
    ((o.getD noneRow).vals c) = o.bind (fun r => r.vals c) := by
  cases o <;> simp [noneRow]

/-! ### Lemma about the Python max -/

theorem foldl_pyMax_spec (f : SourceResult → ℚ) (xs : List SourceResult) :
    ∀ x : SourceResult, ∃ l₁ l₂ c,
      x :: xs = l₁ ++ c :: l₂ ∧
      xs.foldl (fun best y => if f best < f y then y else best) x = c ∧
      (∀ r ∈ x :: xs, f r ≤ f c) ∧ (∀ r ∈ l₁, f r < f c) := by
  induction xs with
  | nil =>
      intro x
      exact ⟨[], [], x, by simp, by simp, by simp, by simp⟩
  | cons y ys ih =>
      intro x
      by_cases h : f x < f y
      · obtain ⟨l₁, l₂, c, hdec, hfold, hmax, hfirst⟩ := ih y
        refine ⟨x :: l₁, l₂, c, by rw [List.cons_append, ← hdec], ?_, ?_, ?_⟩
        · simpa [h] using hfold
        · intro r hr
          rcases List.mem_cons.mp hr with rfl | hr
          · exact le_of_lt (lt_of_lt_of_le h (hmax y (by simp)))
          · exact hmax r hr
        · intro r hr
          rcases List.mem_cons.mp hr with rfl | hr
          · exact lt_of_lt_of_le h (hmax y (by simp))
          · exact hfirst r hr
      · obtain ⟨l₁, l₂, c, hdec, hfold, hmax, hfirst⟩ := ih x
        have hyc : f y ≤ f c := le_trans (le_of_not_lt h) (hmax x (by simp))
        cases l₁ with
        | nil =>
            simp only [List.nil_append] at hdec
            injection hdec with hxc hys
            subst hxc
            subst hys
            refine ⟨[], y :: ys, x, by simp, by simpa [h] using hfold, ?_, by simp⟩
            intro r hr
            rcases List.mem_cons.mp hr with rfl | hr
            · exact le_refl _
            · rcases List.mem_cons.mp hr with rfl | hr
              · exact hyc
              · exact hmax r (by simp [hr])
        | cons x₁ l₁ =>
            rw [List.cons_append] at hdec
            injection hdec with hx₁ hys
            subst hx₁
            subst hys
            have hxc : f x < f c := hfirst x (by simp)
            refine ⟨x :: y :: l₁, l₂, c, by simp, by simpa [h] using hfold,
              ?_, ?_⟩
            · intro r hr
              rcases List.mem_cons.mp hr with rfl | hr
              · exact le_of_lt hxc
              · rcases List.mem_cons.mp hr with rfl | hr
                · exact hyc
                · exact hmax r (by simp [hr])
            · intro r hr
              rcases List.mem_cons.mp hr with rfl | hr
              · exact hxc
              · rcases List.mem_cons.mp hr with rfl | hr
                · exact lt_of_le_of_lt (le_of_not_lt h) hxc
                · exact hfirst r (by simp [hr])

/-! ### Small bridging lemmas -/

theorem map_fst_pair {β : Type} (g : SourceResult → β) (rs : List SourceResult) :
    (rs.map (fun r => (r.name, g r))).map Prod.fst = rs.map (fun r => r.name) := by
  induction rs <;> simp_all

theorem dictInsert_subset {α : Type} {q : String × α} {k : String} {v : α}
    {d : List (String × α)} (h : q ∈ dictInsert k v d) : q ∈ d ∨ q = (k, v) := by
  induction d with
  | nil => simpa [dictInsert] using h
  | cons p rest ih =>
      obtain ⟨k₁, v₁⟩ := p
      by_cases h₁ : k₁ = k
      · subst h₁
        have h₀ : q = (k₁, v) ∨ q ∈ rest :=
          List.mem_cons.mp (by simpa [dictInsert] using h)
        rcases h₀ with h₂ | h₂
        · right; exact h₂
        · left; exact List.mem_cons_of_mem _ h₂
      · have h₀ : q = (k₁, v₁) ∨ q ∈ dictInsert k v rest :=
          List.mem_cons.mp (by simpa [dictInsert, h₁] using h)
        rcases h₀ with h₂ | h₂
        · left; exact h₂ ▸ List.mem_cons_self _ _
        · rcases ih h₂ with h₃ | h₃
          · left; exact List.mem_cons_of_mem _ h₃
          · right; exact h₃

theorem buildDict_subset {α : Type} {q : String × α} {l : List (String × α)}
    (h : q ∈ buildDict l) : q ∈ l := by
  have main : ∀ (l d : List (String × α)), q ∈ l.foldl (fun d p => dictInsert p.1 p.2 d) d →
      q ∈ d ∨ q ∈ l := by
    intro l
    induction l with
    | nil => intro d h; exact Or.inl h
    | cons p rest ih =>
        intro d h
        rcases ih (dictInsert p.1 p.2 d) h with h₂ | h₂
        · rcases dictInsert_subset h₂ with h₃ | h₃
          · exact Or.inl h₃
          · exact Or.inr (by simp [h₃])
        · exact Or.inr (by simp [h₂])

  rcases main l [] h with h₂ | h₂
  · cases h₂
  · exact h₂

theorem buildDict_ne_nil {α : Type} {p : String × α} {l : List (String × α)} :
    buildDict (p :: l) ≠ [] := by
  intro h
  have := buildDict_keys (p :: l)
  rw [h] at this
  simp [firstDedup] at this

theorem alookup_map_pair {β : Type} (h : SourceResult → β) :
    ∀ (rs : List SourceResult), (rs.map (fun r => r.name)).Nodup →
      ∀ r ∈ rs, alookup r.name (rs.map (fun r' => (r'.name, h r'))) = some (h r) := by
  intro rs
  induction rs with
  | nil => intro _ r hr; cases hr
  | cons a l ih =>
      intro hnd r hr
      simp only [List.map_cons, List.nodup_cons] at hnd
      rcases List.mem_cons.mp hr with rfl | hr
      · simp [alookup]
      · have hne : r.name ≠ a.name := by
          intro hkk
          exact hnd.1 (hkk ▸ List.mem_map_of_mem (fun r => r.name) hr)
        simp only [List.map_cons, alookup, if_neg (Ne.symm hne)]
        exact ih hnd.2 r hr

theorem sum_map_div (rs : List SourceResult) (f : SourceResult → ℚ) (d : ℚ) :
    (rs.map (fun r => f r / d)).sum = (rs.map f).sum / d := by
  induction rs with
  | nil => simp
  | cons a l ih => simp [ih, add_div]

theorem optMul_isSome (w : ℚ) (o : Option ℚ) : (optMul w o).isSome = o.isSome := by
  cases o <;> rfl

theorem optMul_some_getD (w : ℚ) (o : Option ℚ) (h : o.isSome) :
    optMul w o = some (w * o.getD 0) := by
  obtain ⟨v, rfl⟩ := Option.isSome_iff_exists.mp h
  rfl

theorem createConsensus_two (m : ConsensusMethod) (rs : List SourceResult)
    (h : 2 ≤ rs.length) :
    createConsensus m rs = .error "AttributeError: dict object has no attribute empty" := by
  match rs with
  | [] => simp at h
  | [r] => simp at h
  | a :: b :: t => rfl

theorem deviationExceeds_iff (thr s c : ℚ) :
    deviationExceeds thr s c ↔ (c = 0 ∧ s ≠ 0) ∨ (c ≠ 0 ∧ |(s - c) / c| > thr) := by
  unfold deviationExceeds
  by_cases h : c = 0 <;> simp [h]

/-! ### Quality-level characterisation -/

theorem level_max_iffs (s : ℚ) :
    (levelFromScore s = DataQuality.excellent ↔ 9/10 ≤ max 0 s) ∧
    (levelFromScore s = DataQuality.good ↔ 7/10 ≤ max 0 s ∧ max 0 s < 9/10) ∧
    (levelFromScore s = DataQuality.fair ↔ 1/2 ≤ max 0 s ∧ max 0 s < 7/10) ∧
    (levelFromScore s = DataQuality.poor ↔ 3/10 ≤ max 0 s ∧ max 0 s < 1/2) ∧
    (levelFromScore s = DataQuality.unknown ↔ max 0 s < 3/10) := by
  have hmax₁ : ∀ c : ℚ, 0 < c → (c ≤ max 0 s ↔ c ≤ s) := by
    intro c hc
    rw [le_max_iff]
    constructor
    · rintro (h | h)
      · linarith
      · exact h
    · exact Or.inr
  have hmax₂ : ∀ c : ℚ, 0 < c → (max 0 s < c ↔ s < c) := by
    intro c hc
    rw [max_lt_iff]
    constructor
    · rintro ⟨_, h⟩
      exact h
    · intro h
      exact ⟨hc, h⟩
  rw [hmax₁ _ (by norm_num), hmax₁ _ (by norm_num), hmax₁ _ (by norm_num),
    hmax₁ _ (by norm_num), hmax₂ _ (by norm_num), hmax₂ _ (by norm_num),
    hmax₂ _ (by norm_num)]
  unfold levelFromScore
  split_ifs with h1 h2 h3 h4 <;>
    refine ⟨?_, ?_, ?_, ?_, ?_⟩ <;>
    simp <;>
    first
      | linarith
      | (constructor <;> linarith)
      | (intros; linarith)

/-! ### Claim theorems -/

/-- Claim C2, counterexample: with zero collected SourceResults the claim
demands `metadata.error = true`, but the source takes the no-source branch of
`_create_fallback_result`, whose metadata is `{fallback: true, reason:
"no_sources"}` and carries no `error` key at all. -/
theorem C2_counterexample :
    alookup "error" (get_consensus_data "AAPL" "2024-01-01 to 2024-02-01" "1d"
      ConsensusMethod.weighted_average []).metadata ≠ some (MetaVal.b true) := by
  decide

/-- Claim C2, amended: with zero collected SourceResults the result has an
empty consensus frame, confidence 0, empty agreement map and empty anomaly
list as claimed, but its metadata is `{fallback: true, reason: "no_sources"}`
rather than `{error: true}`. -/
theorem C2_amended (symbol dateRange interval : String) (method : ConsensusMethod) :
    (get_consensus_data symbol dateRange interval method []).consensus_data = emptyDF ∧
    (get_consensus_data symbol dateRange interval method []).confidence_score = 0 ∧
    (get_consensus_data symbol dateRange interval method []).source_agreement = [] ∧
    (get_consensus_data symbol dateRange interval method []).anomalies = [] ∧
    (get_consensus_data symbol dateRange interval method []).metadata =
      [("fallback", MetaVal.b true), ("reason", MetaVal.s "no_sources")] :=
  ⟨rfl, rfl, rfl, rfl, rfl⟩

/-- Claim C6 (confirmed): one collected SourceResult takes the fallback path
for every consensus method: the consensus frame is the frame of that source,
unchanged, the confidence is its quality score halved, the agreement map has
the single entry 1.0, there are no anomalies, and the metadata records the
fallback with reason `insufficient_sources`. -/
theorem C6_single_source (r : SourceResult) (symbol dateRange interval : String)
    (method : ConsensusMethod) :
    (get_consensus_data symbol dateRange interval method [r]).consensus_data = r.data ∧
    (get_consensus_data symbol dateRange interval method [r]).confidence_score =
      (r.validation.quality_score : ℝ) * (1/2) ∧
    (get_consensus_data symbol dateRange interval method [r]).source_agreement =
      [(r.name, 1)] ∧
    (get_consensus_data symbol dateRange interval method [r]).anomalies = [] ∧
    (get_consensus_data symbol dateRange interval method [r]).metadata =
      [("fallback", MetaVal.b true), ("reason", MetaVal.s "insufficient_sources")] :=
  ⟨rfl, rfl, rfl, rfl, rfl⟩

/-- Claim C9 (confirmed): whenever the consensus frame is empty,
`_calculate_confidence` returns exactly 0, whatever the sources are — the
source-count and quality terms of the formula are never reached. -/
theorem C9_empty_consensus_confidence (rs : List SourceResult) (cdf : DF)
    (h₁ : rs ≠ []) (h₂ : cdf.rows = []) : calcConfidence rs cdf = 0 := by
  simp [calcConfidence, h₂]

/-- Claim C9, witness at a concrete input. -/
theorem C9_empty_consensus_confidence_witness :
    [srcSolo] ≠ ([] : List SourceResult) ∧ emptyDF.rows = [] ∧
      calcConfidence [srcSolo] emptyDF = 0 :=
  ⟨by simp, rfl, C9_empty_consensus_confidence [srcSolo] emptyDF (by simp) rfl⟩

/-- Claim C8 (confirmed): the quality level reported by `validate_data` is an
exact threshold function of the reported (floored) quality score, with closed
lower boundaries at 0.9, 0.7, 0.5 and 0.3.  The source computes the level
from the raw accumulated score and floors the reported score at 0 separately,
but the two agree because every negative raw score falls below 0.3. -/
theorem C8_quality_level_thresholds (df : DF) :
    ((validate_data df).quality_level = DataQuality.excellent ↔
      9/10 ≤ (validate_data df).quality_score) ∧
    ((validate_data df).quality_level = DataQuality.good ↔
      7/10 ≤ (validate_data df).quality_score ∧ (validate_data df).quality_score < 9/10) ∧
    ((validate_data df).quality_level = DataQuality.fair ↔
      1/2 ≤ (validate_data df).quality_score ∧ (validate_data df).quality_score < 7/10) ∧
    ((validate_data df).quality_level = DataQuality.poor ↔
      3/10 ≤ (validate_data df).quality_score ∧ (validate_data df).quality_score < 1/2) ∧
    ((validate_data df).quality_level = DataQuality.unknown ↔
      (validate_data df).quality_score < 3/10) :=
  level_max_iffs ((qualityChecks df).2.2)

/-- Claim C10 (confirmed): throughout the pipeline a source is identified by
its adapter class name.  The aligned map, the weights dict of the weighted
average and the agreement map each hold exactly one entry per distinct class
name (in first-appearance order), and the entry of a repeated name is the
one computed from the last SourceResult carrying that name. -/
theorem C10_class_name_identity (rs : List SourceResult) (cdf : DF) (nm : String) :
    ((alignDataSources rs).map Prod.fst =
      if (unionDates rs).isEmpty then [] else firstDedup (rs.map (fun r => r.name))) ∧
    ((weightsDict rs).map Prod.fst = firstDedup (rs.map (fun r => r.name))) ∧
    ((calcSourceAgreement rs cdf).map Prod.fst = firstDedup (rs.map (fun r => r.name))) ∧
    (alookup nm (alignDataSources rs) =
      if (unionDates rs).isEmpty then none
      else lastVal nm (rs.map (fun r => (r.name, r.data.reindex (unionDates rs))))) ∧
    (alookup nm (weightsDict rs) = lastVal nm (rs.map (fun r => (r.name, r.weight)))) ∧
    (alookup nm (calcSourceAgreement rs cdf) =
      lastVal nm (rs.map (fun r => (r.name, agreementValue cdf r)))) := by
  refine ⟨?_, ?_, ?_, ?_, ?_, ?_⟩
  · by_cases h : (unionDates rs).isEmpty
    · simp [alignDataSources, h]
    · simp only [alignDataSources, if_neg h]
      rw [buildDict_keys, map_fst_pair]
  · rw [weightsDict, buildDict_keys, map_fst_pair]
  · rw [calcSourceAgreement, buildDict_keys, map_fst_pair]
  · by_cases h : (unionDates rs).isEmpty
    · simp [alignDataSources, h, alookup]
    · simp only [alignDataSources, if_neg h]
      rw [buildDict_alookup]
  · rw [weightsDict, buildDict_alookup]
  · rw [calcSourceAgreement, buildDict_alookup]

/-- Membership characterisation of the per-source anomaly records. -/
theorem mem_anomaliesFor (thr : ℚ) (cdf : DF) (r : SourceResult) (rec : AnomalyRecord) :
    rec ∈ anomaliesFor thr cdf r ↔
      ∃ t ∈ commonDates cdf r.data, ∃ c s,
        cdf.closeAt t = some c ∧ r.data.closeAt t = some s ∧
        deviationExceeds thr s c ∧
        rec = ⟨r.name, t, c, s, deviationPct s c, "price_deviation"⟩ := by
  unfold anomaliesFor
  by_cases he : r.data.rows.isEmpty
  · rw [if_pos he]
    constructor
    · intro h
      cases h
    · rintro ⟨t, ht, _⟩
      exfalso
      have hidx : r.data.index = [] := by
        unfold DF.index
        rw [List.isEmpty_iff.mp he]
        rfl
      rw [commonDates, hidx] at ht
      simp at ht
  · rw [if_neg he, List.mem_filterMap]
    constructor
    · rintro ⟨t, ht, hf⟩
      refine ⟨t, ht, ?_⟩
      cases hc : cdf.closeAt t with
      | none => rw [hc] at hf; simp at hf
      | some c =>
          cases hs : r.data.closeAt t with
          | none => rw [hc, hs] at hf; simp at hf
          | some s =>
              rw [hc, hs] at hf
              have hf₂ : (if deviationExceeds thr s c then
                  some (⟨r.name, t, c, s, deviationPct s c,
                    "price_deviation"⟩ : AnomalyRecord)
                  else none) = some rec := hf
              by_cases hd : deviationExceeds thr s c
              · rw [if_pos hd] at hf₂
                exact ⟨c, s, rfl, rfl, hd, (Option.some_inj.mp hf₂).symm⟩
              · rw [if_neg hd] at hf₂
                simp at hf₂
    · rintro ⟨t, ht, c, s, hc, hs, hd, hrec⟩
      refine ⟨t, ht, ?_⟩
      rw [hc, hs]
      show (if deviationExceeds thr s c then
          some (⟨r.name, t, c, s, deviationPct s c, "price_deviation"⟩ : AnomalyRecord)
          else none) = some rec
      rw [if_pos hd, hrec]

/-- Claim C4, amended: a price-deviation record for a (source, timestamp)
pair is emitted exactly when both closes are present there and EITHER the
consensus close is non-zero with relative deviation above the threshold, OR
the consensus close is 0 and the source close is not (the float deviation is
then infinite, which the `>` comparison flags).  A record can thus be
emitted at a timestamp with `consensus_close == 0`; only missing
observations and the 0/0 case emit nothing. -/
theorem C4_amended (thr : ℚ) (rs : List SourceResult) (cdf : DF) (rec : AnomalyRecord) :
    rec ∈ detectAnomalies thr rs cdf ↔
      ∃ r ∈ rs, ∃ t ∈ commonDates cdf r.data, ∃ c s,
        cdf.closeAt t = some c ∧ r.data.closeAt t = some s ∧
        ((c = 0 ∧ s ≠ 0) ∨ (c ≠ 0 ∧ |(s - c) / c| > thr)) ∧
        rec = ⟨r.name, t, c, s, deviationPct s c, "price_deviation"⟩ := by
  unfold detectAnomalies
  simp only [List.mem_flatMap, mem_anomaliesFor, deviationExceeds_iff]

/-- Claim C4, counterexample: the claim states that no record is ever emitted
at a timestamp where the consensus close is 0, but with consensus close 0 and
source close 2 the source emits a record (its stored deviation is the
non-finite float, `none` in this model). -/
theorem C4_counterexample :
    detectAnomalies (1/10) [srcA] cdfZeroClose =
      [⟨"A", 0, 0, 2, none, "price_deviation"⟩] ∧
    (cdfZeroClose.closeAt 0 = some 0) := by
  constructor <;> decide

/-- Claim C7, amended: `_highest_quality_consensus` adopts the frame of the
FIRST source (in input order) attaining the maximal quality score; the
weight is never consulted as a tie-break. -/
theorem C7_amended (rs : List SourceResult) (h : rs ≠ []) :
    ∃ l₁ l₂ c, rs = l₁ ++ c :: l₂ ∧
      highestQualityConsensus rs = c.data ∧
      (∀ r ∈ rs, r.validation.quality_score ≤ c.validation.quality_score) ∧
      (∀ r ∈ l₁, r.validation.quality_score < c.validation.quality_score) := by
  cases rs with
  | nil => exact absurd rfl h
  | cons x xs =>
      obtain ⟨l₁, l₂, c, hdec, hfold, hmax, hfirst⟩ :=
        foldl_pyMax_spec (fun r => r.validation.quality_score) xs x
      exact ⟨l₁, l₂, c, hdec, by simp [highestQualityConsensus, pyMaxBy, hfold],
        hmax, hfirst⟩

/-- Claim C7, witness of the amended statement at a concrete input. -/
theorem C7_amended_witness :
    poolTie ≠ [] ∧
    (∃ l₁ l₂ c, poolTie = l₁ ++ c :: l₂ ∧
      highestQualityConsensus poolTie = c.data ∧
      (∀ r ∈ poolTie, r.validation.quality_score ≤ c.validation.quality_score) ∧
      (∀ r ∈ l₁, r.validation.quality_score < c.validation.quality_score)) :=
  ⟨by simp [poolTie], C7_amended poolTie (by simp [poolTie])⟩

/-- Claim C7, counterexample: two sources tie on quality score 1 while the
second has the larger weight; the claim says the tie is broken by weight
(adopting the second frame), but the source `max` keeps the first maximal
element, adopting the first frame. -/
theorem C7_counterexample :
    highestQualityConsensus poolTie = ⟨[(0, fullRowOf 1)]⟩ ∧
    poolTie.map (fun r => r.validation.quality_score) = [1, 1] ∧
    poolTie.map (fun r => r.weight) = [1/10, 9/10] ∧
    (⟨[(0, fullRowOf 1)]⟩ : DF) ≠ ⟨[(0, fullRowOf 2)]⟩ := by
  refine ⟨?_, rfl, rfl, by decide⟩
  simp [highestQualityConsensus, pyMaxBy, poolTie, vr1]

/-- Unfolding equation for `weightedAverageConsensus` with its lets expanded. -/
theorem weightedAverageConsensus_eq (aligned : List (String × DF)) (rs : List SourceResult) :
    weightedAverageConsensus aligned rs =
      if aligned.isEmpty then .ok emptyDF
      else if ((weightsDict rs).map Prod.snd).sum = 0 then
        .error "float division by zero"
      else .ok (DF.dropna ⟨((aligned.headD ("", emptyDF)).2).index.map
        (fun t => (t, consensusRowAt ((weightsDict rs).map
          (fun p => (p.1, p.2 / ((weightsDict rs).map Prod.snd).sum))) aligned t))⟩) :=
  rfl

/-- Claim C3, amended: when every weight is 0 the weighted-average component
raises ZeroDivisionError while normalising, instead of dropping the affected
timestamps; and for two or more sources the orchestrator never produces a
normal result at all — `_create_consensus` fails on `aligned_data.empty`
before dispatching any method — so the catch-all handler returns the error
ConsensusResult (empty frame, confidence 0, `metadata.error = true`).  No
exception escapes, but no reduced consensus is produced either. -/
theorem C3_amended (rs : List SourceResult) (symbol dateRange interval : String)
    (hlen : 2 ≤ rs.length) (hw : ∀ r ∈ rs, r.weight = 0)
    (hu : unionDates rs ≠ []) :
    weightedAverageConsensus (alignDataSources rs) rs =
      .error "float division by zero" ∧
    get_consensus_data symbol dateRange interval ConsensusMethod.weighted_average rs =
      createErrorResult "AttributeError: dict object has no attribute empty" := by
  constructor
  · have hrs : rs ≠ [] := by
      intro h
      subst h
      exact hu rfl
    obtain ⟨a, rs₂, rfl⟩ := List.exists_cons_of_ne_nil hrs
    have hne : ¬ ((unionDates (a :: rs₂)).isEmpty = true) := by simpa using hu
    have halign : alignDataSources (a :: rs₂) ≠ [] := by
      simp only [alignDataSources, if_neg hne]
      exact buildDict_ne_nil
    rw [weightedAverageConsensus_eq,
      if_neg (by simpa using halign)]
    have htot : ((weightsDict (a :: rs₂)).map Prod.snd).sum = 0 := by
      apply List.sum_eq_zero
      intro x hx
      obtain ⟨⟨k, v⟩, hmem, rfl⟩ := List.mem_map.mp hx
      obtain ⟨r, hr, heq⟩ := List.mem_map.mp (buildDict_subset hmem)
      have hv : (k, v).2 = r.weight := by rw [← heq]
      rw [hv]
      exact hw r hr
    rw [if_pos htot]
  · have h₂ : ¬ rs.length < minSources := by
      simp only [minSources]
      omega
    unfold get_consensus_data
    rw [if_neg h₂, createConsensus_two _ _ hlen]

/-- Claim C3, witness of the amended statement at two zero-weight sources. -/
theorem C3_amended_witness :
    2 ≤ poolZeroW.length ∧ (∀ r ∈ poolZeroW, r.weight = 0) ∧
    unionDates poolZeroW ≠ [] ∧
    (weightedAverageConsensus (alignDataSources poolZeroW) poolZeroW =
        .error "float division by zero" ∧
      get_consensus_data "AAPL" "2024-01-01 to 2024-02-01" "1d"
          ConsensusMethod.weighted_average poolZeroW =
        createErrorResult "AttributeError: dict object has no attribute empty") :=
  ⟨by decide, by decide, by decide,
    C3_amended poolZeroW "AAPL" "2024-01-01 to 2024-02-01" "1d"
      (by decide) (by decide) (by decide)⟩

/-- Claim C3, counterexample: with two sources of weight 0 the claim demands
a normally produced ConsensusResult with success metadata and only the
affected timestamps dropped; the source instead returns the error result —
`metadata.error = true` and an empty consensus frame. -/
theorem C3_counterexample :
    (∀ r ∈ poolZeroW, r.weight = 0) ∧
    alookup "error" (get_consensus_data "AAPL" "2024-01-01 to 2024-02-01" "1d"
      ConsensusMethod.weighted_average poolZeroW).metadata = some (MetaVal.b true) ∧
    alookup "sources_used" (get_consensus_data "AAPL" "2024-01-01 to 2024-02-01" "1d"
      ConsensusMethod.weighted_average poolZeroW).metadata = none ∧
    (get_consensus_data "AAPL" "2024-01-01 to 2024-02-01" "1d"
      ConsensusMethod.weighted_average poolZeroW).consensus_data = emptyDF := by
  refine ⟨by decide, rfl, rfl, rfl⟩

/-- Absolute correlation of a source tracking the consensus exactly on the
two shared points (1, 1) and (2, 2) is 1. -/
theorem absCorr_track : absCorr [((1:ℚ), 1), (2, 2)] = some 1 := by
  unfold absCorr
  norm_num
  rw [show (4:ℝ) = 2^2 by norm_num, Real.sqrt_sq (by norm_num : (0:ℝ) ≤ 2),
    abs_of_pos (by norm_num : (0:ℝ) < 1/2)]
  norm_num

/-- Claim C5, counterexample: six sources of quality 0 — five tracking the
consensus exactly over two shared timestamps (agreement 1), one sharing a
single timestamp (undefined correlation).  The source computes
(6/5)·0.3 + 0·0.4 + 1·0.3 = 0.66: the count term is not capped at 1 and the
undefined correlation is excluded from the agreement mean.  The claim formula
gives 0.3·min(1, 6/5) + 0·0.4 + 0.3·(5/6) = 0.55. -/
theorem C5_counterexample :
    calcConfidence poolC5 cdfC5 = 33/50 ∧
    claimConfidence 6 (poolC5.map (fun r => r.validation.quality_score))
      [1, 1, 1, 1, 1, 0] = 11/20 ∧
    calcConfidence poolC5 cdfC5 ≠
      ((claimConfidence 6 (poolC5.map (fun r => r.validation.quality_score))
        [1, 1, 1, 1, 1, 0] : ℚ) : ℝ) := by
  have hdata : ∀ nm, (srcTrack nm).data = ⟨[(0, fullRowOf 1), (1, fullRowOf 2)]⟩ :=
    fun _ => rfl
  have hpairs : closePairs cdfC5 (⟨[(0, fullRowOf 1), (1, fullRowOf 2)]⟩ : DF) =
      [((1:ℚ), 1), (2, 2)] := by decide
  have hf : ∀ nm, (if (srcTrack nm).data.rows.isEmpty = true then none
      else if 1 < (commonDates cdfC5 (srcTrack nm).data).length
      then absCorr (closePairs cdfC5 (srcTrack nm).data) else none) = some (1:ℝ) := by
    intro nm
    rw [hdata nm, if_neg (by decide), if_pos (by decide), hpairs]
    exact absCorr_track
  have hf₆ : (if srcOneDate.data.rows.isEmpty = true then none
      else if 1 < (commonDates cdfC5 srcOneDate.data).length
      then absCorr (closePairs cdfC5 srcOneDate.data) else none) = (none : Option ℝ) := by
    rw [if_neg (by decide), if_neg (by decide)]
  have hcode : calcConfidence poolC5 cdfC5 = 33/50 := by
    unfold calcConfidence
    rw [if_neg (by decide)]
    simp only [poolC5, List.filterMap_cons, List.filterMap_nil, hf, hf₆]
    norm_num [srcTrack, srcOneDate, vr0]
  have hclaim : claimConfidence 6 (poolC5.map (fun r => r.validation.quality_score))
      [1, 1, 1, 1, 1, 0] = 11/20 := by
    unfold claimConfidence qMean
    norm_num [poolC5, srcTrack, srcOneDate, vr0]
  refine ⟨hcode, hclaim, ?_⟩
  rw [hcode, hclaim]
  norm_num

/-- Claim C5, amended: the confidence is the clamped combination in which the
source-count quotient `n/5` enters UNCAPPED and the agreement mean runs only
over the sources with a defined correlation (non-empty frame, more than one
shared timestamp, non-NaN correlation) — a source with an undefined
correlation is excluded from the mean rather than contributing 0. -/
theorem C5_amended (rs : List SourceResult) (cdf : DF)
    (h₁ : minSources ≤ rs.length) (h₂ : cdf.rows ≠ []) :
    calcConfidence rs cdf =
      min 1 (max 0 (((rs.length : ℝ) / 5) * (3/10)
        + ((((rs.map (fun r => r.validation.quality_score)).sum / (rs.length : ℚ)) : ℚ) : ℝ)
          * (4/10)
        + rMean (definedAgreements rs cdf) * (3/10))) := by
  have hne : ¬ ((rs.isEmpty = true) ∨ (cdf.rows.isEmpty = true)) := by
    push_neg
    constructor
    · cases rs with
      | nil => simp [minSources] at h₁
      | cons a l => simp
    · simpa using h₂
  unfold calcConfidence definedAgreements rMean
  rw [if_neg hne]
  push_cast
  rfl

/-- Claim C5, witness of the amended statement at a concrete input. -/
theorem C5_amended_witness :
    minSources ≤ poolC5.length ∧ cdfC5.rows ≠ [] ∧
    calcConfidence poolC5 cdfC5 =
      min 1 (max 0 (((poolC5.length : ℝ) / 5) * (3/10)
        + ((((poolC5.map (fun r => r.validation.quality_score)).sum
            / (poolC5.length : ℚ)) : ℚ) : ℝ) * (4/10)
        + rMean (definedAgreements poolC5 cdfC5) * (3/10))) :=
  ⟨by decide, by decide, C5_amended poolC5 cdfC5 (by decide) (by decide)⟩

/-- Extensionality for rows. -/
theorem rowExt (a b : Row) (h : ∀ c, a.vals c = b.vals c) : a = b := by
  cases a
  cases b
  congr 1
  exact funext h

/-- Pointwise evaluation of one consensus row over aligned sources with
pairwise-distinct names. -/
theorem consensusRowAt_eval (rs : List SourceResult)
    (hnd : (rs.map (fun r => r.name)).Nodup) (W : ℚ) (u : List ℕ) (t : ℕ)
    (ht : t ∈ u) (c : Col) :
    (consensusRowAt (rs.map (fun r => (r.name, r.weight / W)))
        (rs.map (fun r => (r.name, r.data.reindex u))) t).vals c =
      sumOpt (rs.map (fun r =>
        optMul (r.weight / W) ((r.data.lookupT t).bind (fun w => w.vals c)))) := by
  show sumOpt ((rs.map (fun r => (r.name, r.data.reindex u))).map (fun p =>
      optMul ((alookup p.1 (rs.map (fun r => (r.name, r.weight / W)))).getD 0)
        (((p.2.lookupT t).getD noneRow).vals c))) = _
  rw [List.map_map]
  congr 1
  apply List.map_congr_left
  intro r hr
  show optMul ((alookup r.name (rs.map (fun r' => (r'.name, r'.weight / W)))).getD 0)
      ((((r.data.reindex u).lookupT t).getD noneRow).vals c) = _
  rw [alookup_map_pair (fun r' => r'.weight / W) rs hnd r hr]
  rw [reindex_lookupT, if_pos ht]
  rw [show ((some ((r.data.lookupT t).getD noneRow)).getD noneRow) =
    (r.data.lookupT t).getD noneRow from rfl]
  rw [getD_noneRow_vals]
  rfl

/-- Value of the NaN-propagating weighted sum when every contribution is
present. -/
theorem sumOpt_weighted (rs : List SourceResult) (W : ℚ) (t : ℕ) (c : Col)
    (hP : ∀ r ∈ rs, ((r.data.lookupT t).bind (fun w => w.vals c)).isSome) :
    sumOpt (rs.map (fun r =>
        optMul (r.weight / W) ((r.data.lookupT t).bind (fun w => w.vals c)))) =
      some ((rs.map (fun r =>
        r.weight * (((r.data.lookupT t).bind (fun x => x.vals c)).getD 0))).sum / W) := by
  rw [sumOpt_some]
  · congr 1
    rw [← sum_map_div, List.map_map]
    congr 1
    apply List.map_congr_left
    intro r hr
    show (optMul (r.weight / W) ((r.data.lookupT t).bind (fun w => w.vals c))).getD 0 = _
    rw [optMul_some_getD _ _ (hP r hr)]
    rw [show (some ((r.weight / W) *
      (((r.data.lookupT t).bind (fun w => w.vals c)).getD 0))).getD 0 =
      (r.weight / W) * (((r.data.lookupT t).bind (fun w => w.vals c)).getD 0) from rfl]
    rw [div_mul_eq_mul_div]
  · intro x hx
    obtain ⟨r, hr, rfl⟩ := List.mem_map.mp hx
    rw [optMul_isSome]
    exact hP r hr

/-- The NaN-propagating weighted sum is NaN when some contribution is
missing. -/
theorem sumOpt_weighted_none (rs : List SourceResult) (W : ℚ) (t : ℕ) (c : Col)
    (r : SourceResult) (hr : r ∈ rs)
    (hns : ¬ ((r.data.lookupT t).bind (fun w => w.vals c)).isSome) :
    sumOpt (rs.map (fun r =>
        optMul (r.weight / W) ((r.data.lookupT t).bind (fun w => w.vals c)))) = none := by
  apply sumOpt_none
  have hnone : (r.data.lookupT t).bind (fun w => w.vals c) = none := by
    cases hb : (r.data.lookupT t).bind (fun w => w.vals c) with
    | none => rfl
    | some v => rw [hb] at hns; simp at hns
  apply List.mem_map.mpr
  refine ⟨r, hr, ?_⟩
  rw [hnone]
  rfl

/-- Lookup in the consensus frame after `dropna`: a timestamp survives
exactly when it is in the index and its row has every column present. -/
theorem dropna_lookupT (idx : List ℕ) (h : idx.Nodup) (g : ℕ → Row) (t : ℕ) :
    (DF.dropna ⟨idx.map (fun s => (s, g s))⟩).lookupT t =
      if t ∈ idx ∧ (∀ c, ((g t).vals c).isSome) then some (g t) else none := by
  have h₂ := lookupT_map_filter idx h g (fun row => decide (∀ c, (row.vals c).isSome)) t
  simp only [decide_eq_true_eq] at h₂
  exact h₂

/-- Claim C1, amended: under the weighted_average method with distinct
adapter class names and a non-zero total weight, the consensus holds a row at
a timestamp exactly when EVERY source has a full observation there — a
timestamp at which any source is missing any field is dropped by `dropna`,
not filled from the remaining sources — and the surviving value is the mean
weighted by the weights normalised over ALL sources (`codeConsensusAt`). -/
theorem C1_amended (rs : List SourceResult)
    (hnd : (rs.map (fun r => r.name)).Nodup)
    (hW : (rs.map (fun r => r.weight)).sum ≠ 0) (t : ℕ) :
    (weightedAverageConsensus (alignDataSources rs) rs).map (fun df => df.lookupT t) =
      .ok (codeConsensusAt rs t) := by
  by_cases hu : (unionDates rs).isEmpty
  · have hun : unionDates rs = [] := by simpa using hu
    have ha : alignDataSources rs = [] := by simp [alignDataSources, hu]
    have hc : codeConsensusAt rs t = none := by
      unfold codeConsensusAt
      rw [if_neg]
      rintro ⟨hmem, -⟩
      rw [hun] at hmem
      cases hmem
    rw [ha, weightedAverageConsensus_eq, hc]
    rfl
  · have hrs : rs ≠ [] := by
      intro h
      subst h
      exact hu rfl
    obtain ⟨r₀, rs₂, rfl⟩ := List.exists_cons_of_ne_nil hrs
    have hkeysAlign : ((((r₀ :: rs₂).map (fun r =>
        (r.name, r.data.reindex (unionDates (r₀ :: rs₂))))).map Prod.fst)).Nodup := by
      rw [map_fst_pair]
      exact hnd
    have ha : alignDataSources (r₀ :: rs₂) = (r₀ :: rs₂).map (fun r =>
        (r.name, r.data.reindex (unionDates (r₀ :: rs₂)))) := by
      simp only [alignDataSources,
        if_neg (show ¬ ((unionDates (r₀ :: rs₂)).isEmpty = true) from hu)]
      exact buildDict_of_nodup _ hkeysAlign
    have hwd : weightsDict (r₀ :: rs₂) = (r₀ :: rs₂).map (fun r => (r.name, r.weight)) :=
      buildDict_of_nodup _ (by rw [map_fst_pair]; exact hnd)
    have hsnd : (((r₀ :: rs₂).map (fun r => (r.name, r.weight))).map Prod.snd) =
        (r₀ :: rs₂).map (fun r => r.weight) := by
      rw [List.map_map]
      rfl
    have hnorm : (((r₀ :: rs₂).map (fun r => (r.name, r.weight))).map (fun p =>
        (p.1, p.2 / ((r₀ :: rs₂).map (fun r => r.weight)).sum))) =
        (r₀ :: rs₂).map (fun r =>
          (r.name, r.weight / ((r₀ :: rs₂).map (fun r => r.weight)).sum)) := by
      rw [List.map_map]
      rfl
    have hidx : ((((r₀ :: rs₂).map (fun r =>
        (r.name, r.data.reindex (unionDates (r₀ :: rs₂))))).headD ("", emptyDF)).2).index =
        unionDates (r₀ :: rs₂) := by
      simp only [List.map_cons, List.headD_cons]
      rw [reindex_index]
    rw [weightedAverageConsensus_eq, ha, hwd, hsnd, hnorm,
      if_neg (show ¬ ((((r₀ :: rs₂).map (fun r =>
        (r.name, r.data.reindex (unionDates (r₀ :: rs₂))))).isEmpty) = true) from by simp),
      if_neg hW, hidx]
    show Except.ok ((DF.dropna ⟨(unionDates (r₀ :: rs₂)).map (fun s =>
        (s, consensusRowAt ((r₀ :: rs₂).map (fun r =>
          (r.name, r.weight / ((r₀ :: rs₂).map (fun r => r.weight)).sum)))
          ((r₀ :: rs₂).map (fun r =>
            (r.name, r.data.reindex (unionDates (r₀ :: rs₂))))) s))⟩).lookupT t) =
      Except.ok (codeConsensusAt (r₀ :: rs₂) t)
    congr 1
    rw [dropna_lookupT _ (unionDates_nodup _) _ t]
    unfold codeConsensusAt
    by_cases htm : t ∈ unionDates (r₀ :: rs₂)
    · by_cases hP : ∀ r ∈ (r₀ :: rs₂), ∀ c,
          ((r.data.lookupT t).bind (fun w => w.vals c)).isSome
      · have hg : ∀ c, ((consensusRowAt ((r₀ :: rs₂).map (fun r =>
            (r.name, r.weight / ((r₀ :: rs₂).map (fun r => r.weight)).sum)))
            ((r₀ :: rs₂).map (fun r =>
              (r.name, r.data.reindex (unionDates (r₀ :: rs₂))))) t).vals c).isSome := by
          intro c
          rw [consensusRowAt_eval _ hnd _ _ _ htm c,
            sumOpt_weighted _ _ _ _ (fun r hr => hP r hr c)]
          rfl
        rw [if_pos ⟨htm, hg⟩, if_pos ⟨htm, hP⟩]
        congr 1
        apply rowExt
        intro c
        rw [consensusRowAt_eval _ hnd _ _ _ htm c,
          sumOpt_weighted _ _ _ _ (fun r hr => hP r hr c)]
        rfl
      · have hx : ∃ r ∈ (r₀ :: rs₂), ∃ c,
            ¬ ((r.data.lookupT t).bind (fun w => w.vals c)).isSome = true := by
          push_neg at hP
          simpa using hP
        obtain ⟨r, hr, c, hns⟩ := hx
        have hnone : (consensusRowAt ((r₀ :: rs₂).map (fun r =>
            (r.name, r.weight / ((r₀ :: rs₂).map (fun r => r.weight)).sum)))
            ((r₀ :: rs₂).map (fun r =>
              (r.name, r.data.reindex (unionDates (r₀ :: rs₂))))) t).vals c = none := by
          rw [consensusRowAt_eval _ hnd _ _ _ htm c]
          exact sumOpt_weighted_none _ _ _ _ r hr hns
        have hn₁ : ¬ (t ∈ unionDates (r₀ :: rs₂) ∧ ∀ c₂,
            ((consensusRowAt ((r₀ :: rs₂).map (fun r =>
              (r.name, r.weight / ((r₀ :: rs₂).map (fun r => r.weight)).sum)))
              ((r₀ :: rs₂).map (fun r =>
                (r.name, r.data.reindex (unionDates (r₀ :: rs₂))))) t).vals c₂).isSome) := by
          rintro ⟨-, hall⟩
          have h₃ := hall c
          rw [hnone] at h₃
          simp at h₃
        have hn₂ : ¬ (t ∈ unionDates (r₀ :: rs₂) ∧ ∀ r ∈ (r₀ :: rs₂), ∀ c,
            ((r.data.lookupT t).bind (fun w => w.vals c)).isSome) := by
          rintro ⟨-, hall⟩
          exact hns (hall r hr c)
        rw [if_neg hn₁, if_neg hn₂]
    · have hn₁ : ¬ (t ∈ unionDates (r₀ :: rs₂) ∧ ∀ c,
          ((consensusRowAt ((r₀ :: rs₂).map (fun r =>
            (r.name, r.weight / ((r₀ :: rs₂).map (fun r => r.weight)).sum)))
            ((r₀ :: rs₂).map (fun r =>
              (r.name, r.data.reindex (unionDates (r₀ :: rs₂))))) t).vals c).isSome) := by
        rintro ⟨h₃, -⟩
        exact htm h₃
      have hn₂ : ¬ (t ∈ unionDates (r₀ :: rs₂) ∧ ∀ r ∈ (r₀ :: rs₂), ∀ c,
          ((r.data.lookupT t).bind (fun w => w.vals c)).isSome) := by
        rintro ⟨h₃, -⟩
        exact htm h₃
      rw [if_neg hn₁, if_neg hn₂]

/-- Claim C1, counterexample: source A has bars at timestamps 0 and 1 while
source B has one only at 0.  The claim says timestamp 1 still appears in the
consensus, computed from A alone; the source multiplies the reindexed NaN
row of B by its weight, the NaN poisons the sum, and `dropna` removes timestamp 1:
the consensus index is `[0]`. -/
theorem C1_counterexample :
    (1 : ℕ) ∈ unionDates poolAB ∧ (1 : ℕ) ∈ srcA.data.index ∧
    (weightedAverageConsensus (alignDataSources poolAB) poolAB).map DF.index =
      .ok [0] := by
  refine ⟨by decide, by decide, ?_⟩
  show (weightedAverageConsensus (alignDataSources [srcA, srcB]) [srcA, srcB]).map
    DF.index = .ok [0]
  simp [weightedAverageConsensus, consensusRowAt, alignDataSources, unionDates, sortDates,
    insertSorted, buildDict, dictInsert, alookup, weightsDict, sumOpt, optMul, optAdd,
    Row.ofFun, DF.reindex, DF.lookupT, DF.index, DF.dropna, emptyDF, noneRow,
    srcA, srcB, fullRowOf, vr1, List.find?, List.filter]
  norm_num
  decide

/-- Claim C1, witness of the amended statement at a concrete input. -/
theorem C1_amended_witness :
    (poolAB.map (fun r => r.name)).Nodup ∧
    (poolAB.map (fun r => r.weight)).sum ≠ 0 ∧
    (weightedAverageConsensus (alignDataSources poolAB) poolAB).map
      (fun df => df.lookupT 0) = .ok (codeConsensusAt poolAB 0) :=
  ⟨by decide, by norm_num [poolAB, srcA, srcB],
    C1_amended poolAB (by decide) (by norm_num [poolAB, srcA, srcB]) 0⟩

end FinBot
